import Mathlib

/-!
# Verification of the loggoblin shared-field extraction and rendering core

This file is a shallow embedding, in Lean 4, of the core logic of
`src/loggoblin/cli.py`: the plain-text trimmer (`trim_event`), the zoom
renderer (`zoom_in`), the per-event renderer (`render_event`), the batch
analyzer (`analyze_events`), the shared-field remover
(`remove_shared_values`) and the header construction in
`sync_logs_for_group`, together with theorems settling the specified
properties of those functions.

Modelling conventions:

* JSON values (`JsonVal`) are an inductive type; Python dicts produced by
  `json.loads` are association lists (`JDict`) in insertion order, which is
  the order Python dicts preserve and `json.dumps` serializes.  JSON numbers
  are modelled as integers (no property below depends on float formatting).
* The external library call `json.loads` is a parameter
  `loads : String → Option JDict` of the functions that parse: `none` models
  `json.JSONDecodeError`.  (A message that starts with `{` parses, if at all,
  to a JSON object, hence the `JDict` codomain.)
* `datetime.fromtimestamp(ts / 1000).strftime("%H:%M:%S")` depends on the
  process time zone, so the formatted time-of-day is a parameter
  `fmtTime : Int → String` of `render_event`.
* Python string functions (`strip`, `split(None, 1)`, `split(",")`,
  `startswith`), and the regular expression classes `\d` and `\w`, are
  modelled character-by-character over ASCII.
* Python `==` on JSON values is modelled by structural equality of `JsonVal`
  (objects compared in insertion order).
* A Python function that can raise is modelled with an `Option` codomain;
  `none` models the raised exception (`ValueError` in `trim_event`).
-/

/-- A JSON value, as produced by `json.loads`: object fields are kept as an
association list in insertion order. -/
inductive JsonVal : Type where
  | null : JsonVal
  | bool : Bool → JsonVal
  | num : Int → JsonVal
  | str : String → JsonVal
  | arr : List JsonVal → JsonVal
  | obj : List (String × JsonVal) → JsonVal

/-- A parsed JSON object: Python `dict[str, Any]` in insertion order. -/
abbrev JDict := List (String × JsonVal)

mutual

/-- Structural equality test on JSON values (model of Python `==` on the
values `json.loads` returns). -/
def beqVal : JsonVal → JsonVal → Bool
  | JsonVal.null, JsonVal.null => true
  | JsonVal.bool a, JsonVal.bool b => a == b
  | JsonVal.num a, JsonVal.num b => a == b
  | JsonVal.str a, JsonVal.str b => a == b
  | JsonVal.arr a, JsonVal.arr b => beqList a b
  | JsonVal.obj a, JsonVal.obj b => beqDict a b
  | _, _ => false

/-- Structural equality test on JSON arrays. -/
def beqList : List JsonVal → List JsonVal → Bool
  | [], [] => true
  | a :: as, b :: bs => beqVal a b && beqList as bs
  | _, _ => false

/-- Structural equality test on JSON objects. -/
def beqDict : JDict → JDict → Bool
  | [], [] => true
  | (k, v) :: as, (l, w) :: bs => k == l && beqVal v w && beqDict as bs
  | _, _ => false

end

mutual

theorem beqVal_refl : ∀ a, beqVal a a = true
  | JsonVal.null => rfl
  | JsonVal.bool b => by simp [beqVal]
  | JsonVal.num n => by simp [beqVal]
  | JsonVal.str s => by simp [beqVal]
  | JsonVal.arr xs => by simpa [beqVal] using beqList_refl xs
  | JsonVal.obj kvs => by simpa [beqVal] using beqDict_refl kvs

theorem beqList_refl : ∀ xs, beqList xs xs = true
  | [] => rfl
  | x :: xs => by simp [beqList, beqVal_refl x, beqList_refl xs]

theorem beqDict_refl : ∀ d, beqDict d d = true
  | [] => rfl
  | (k, v) :: d => by simp [beqDict, beqVal_refl v, beqDict_refl d]

end

mutual

theorem beqVal_sound : ∀ a b, beqVal a b = true → a = b
  | JsonVal.null, JsonVal.null, _ => rfl
  | JsonVal.bool _, JsonVal.bool _, h => by simpa [beqVal] using h
  | JsonVal.num _, JsonVal.num _, h => by simpa [beqVal] using h
  | JsonVal.str _, JsonVal.str _, h => by simpa [beqVal] using h
  | JsonVal.arr a, JsonVal.arr b, h => by
      rw [beqList_sound a b (by simpa [beqVal] using h)]
  | JsonVal.obj a, JsonVal.obj b, h => by
      rw [beqDict_sound a b (by simpa [beqVal] using h)]
  | JsonVal.null, JsonVal.bool _, h => by simp [beqVal] at h
  | JsonVal.null, JsonVal.num _, h => by simp [beqVal] at h
  | JsonVal.null, JsonVal.str _, h => by simp [beqVal] at h
  | JsonVal.null, JsonVal.arr _, h => by simp [beqVal] at h
  | JsonVal.null, JsonVal.obj _, h => by simp [beqVal] at h
  | JsonVal.bool _, JsonVal.null, h => by simp [beqVal] at h
  | JsonVal.bool _, JsonVal.num _, h => by simp [beqVal] at h
  | JsonVal.bool _, JsonVal.str _, h => by simp [beqVal] at h
  | JsonVal.bool _, JsonVal.arr _, h => by simp [beqVal] at h
  | JsonVal.bool _, JsonVal.obj _, h => by simp [beqVal] at h
  | JsonVal.num _, JsonVal.null, h => by simp [beqVal] at h
  | JsonVal.num _, JsonVal.bool _, h => by simp [beqVal] at h
  | JsonVal.num _, JsonVal.str _, h => by simp [beqVal] at h
  | JsonVal.num _, JsonVal.arr _, h => by simp [beqVal] at h
  | JsonVal.num _, JsonVal.obj _, h => by simp [beqVal] at h
  | JsonVal.str _, JsonVal.null, h => by simp [beqVal] at h
  | JsonVal.str _, JsonVal.bool _, h => by simp [beqVal] at h
  | JsonVal.str _, JsonVal.num _, h => by simp [beqVal] at h
  | JsonVal.str _, JsonVal.arr _, h => by simp [beqVal] at h
  | JsonVal.str _, JsonVal.obj _, h => by simp [beqVal] at h
  | JsonVal.arr _, JsonVal.null, h => by simp [beqVal] at h
  | JsonVal.arr _, JsonVal.bool _, h => by simp [beqVal] at h
  | JsonVal.arr _, JsonVal.num _, h => by simp [beqVal] at h
  | JsonVal.arr _, JsonVal.str _, h => by simp [beqVal] at h
  | JsonVal.arr _, JsonVal.obj _, h => by simp [beqVal] at h
  | JsonVal.obj _, JsonVal.null, h => by simp [beqVal] at h
  | JsonVal.obj _, JsonVal.bool _, h => by simp [beqVal] at h
  | JsonVal.obj _, JsonVal.num _, h => by simp [beqVal] at h
  | JsonVal.obj _, JsonVal.str _, h => by simp [beqVal] at h
  | JsonVal.obj _, JsonVal.arr _, h => by simp [beqVal] at h

theorem beqList_sound : ∀ xs ys, beqList xs ys = true → xs = ys
  | [], [], _ => rfl
  | [], _ :: _, h => by simp [beqList] at h
  | _ :: _, [], h => by simp [beqList] at h
  | x :: xs, y :: ys, h => by
      have h1 : beqVal x y = true := by
        have h' := h; simp [beqList, Bool.and_eq_true] at h'; exact h'.1
      have h2 : beqList xs ys = true := by
        have h' := h; simp [beqList, Bool.and_eq_true] at h'; exact h'.2
      rw [beqVal_sound x y h1, beqList_sound xs ys h2]

theorem beqDict_sound : ∀ d e, beqDict d e = true → d = e
  | [], [], _ => rfl
  | [], _ :: _, h => by simp [beqDict] at h
  | _ :: _, [], h => by simp [beqDict] at h
  | (k, v) :: d, (l, w) :: e, h => by
      have h0 : k = l := by
        have h' := h; simp [beqDict, Bool.and_eq_true] at h'; exact h'.1.1
      have h1 : beqVal v w = true := by
        have h' := h; simp [beqDict, Bool.and_eq_true] at h'; exact h'.1.2
      have h2 : beqDict d e = true := by
        have h' := h; simp [beqDict, Bool.and_eq_true] at h'; exact h'.2
      rw [h0, beqVal_sound v w h1, beqDict_sound d e h2]

end

instance : DecidableEq JsonVal := fun a b =>
  decidable_of_iff (beqVal a b = true) ⟨beqVal_sound a b, fun h => h ▸ beqVal_refl a⟩

/-! ## Serialization: model of `json.dumps` -/

/-- One character of a serialized JSON string (the escapes `json.dumps`
produces for the characters that occur in this development). -/
def escChar (c : Char) : String :=
  if c = '"' then "\\\""
  else if c = '\\' then "\\\\"
  else if c = '\n' then "\\n"
  else if c = '\t' then "\\t"
  else if c = '\r' then "\\r"
  else String.singleton c

/-- A serialized JSON string literal, double quotes included. -/
def jstr (s : String) : String :=
  "\"" ++ s.data.foldl (fun acc c => acc ++ escChar c) "" ++ "\""

mutual

/-- Model of Python `json.dumps(v)` with its default separators
(`", "` between items, `": "` after keys, no newlines). -/
def dumps : JsonVal → String
  | JsonVal.null => "null"
  | JsonVal.bool true => "true"
  | JsonVal.bool false => "false"
  | JsonVal.num n => toString n
  | JsonVal.str s => jstr s
  | JsonVal.arr xs => "[" ++ dumpsArr xs ++ "]"
  | JsonVal.obj kvs => "\x7b" ++ dumpsObj kvs ++ "\x7d"

/-- Comma-separated serialization of the elements of a JSON array. -/
def dumpsArr : List JsonVal → String
  | [] => ""
  | [x] => dumps x
  | x :: y :: rest => dumps x ++ ", " ++ dumpsArr (y :: rest)

/-- Comma-separated serialization of the fields of a JSON object. -/
def dumpsObj : JDict → String
  | [] => ""
  | [(k, v)] => jstr k ++ ": " ++ dumps v
  | (k, v) :: p :: rest => jstr k ++ ": " ++ dumps v ++ ", " ++ dumpsObj (p :: rest)

end

/-- `2 * lvl` spaces: the indentation `json.dumps(..., indent=2)` puts at
nesting level `lvl`. -/
def padTo (lvl : Nat) : String :=
  String.mk (List.replicate (2 * lvl) ' ')

mutual

/-- Model of Python `json.dumps(v, indent=2)` for a value whose closing
bracket sits at nesting level `lvl`. -/
def dumpsInd : Nat → JsonVal → String
  | _, JsonVal.null => "null"
  | _, JsonVal.bool true => "true"
  | _, JsonVal.bool false => "false"
  | _, JsonVal.num n => toString n
  | _, JsonVal.str s => jstr s
  | _, JsonVal.arr [] => "[]"
  | lvl, JsonVal.arr (x :: xs) =>
      "[\n" ++ dumpsIndArr (lvl + 1) (x :: xs) ++ "\n" ++ padTo lvl ++ "]"
  | _, JsonVal.obj [] => "\x7b\x7d"
  | lvl, JsonVal.obj (p :: ps) =>
      "\x7b\n" ++ dumpsIndObj (lvl + 1) (p :: ps) ++ "\n" ++ padTo lvl ++ "\x7d"

/-- Elements of an indented JSON array, one per line, comma-separated. -/
def dumpsIndArr : Nat → List JsonVal → String
  | _, [] => ""
  | lvl, [x] => padTo lvl ++ dumpsInd lvl x
  | lvl, x :: y :: rest =>
      padTo lvl ++ dumpsInd lvl x ++ ",\n" ++ dumpsIndArr lvl (y :: rest)

/-- Fields of an indented JSON object, one per line, comma-separated. -/
def dumpsIndObj : Nat → JDict → String
  | _, [] => ""
  | lvl, [(k, v)] => padTo lvl ++ jstr k ++ ": " ++ dumpsInd lvl v
  | lvl, (k, v) :: p :: rest =>
      padTo lvl ++ jstr k ++ ": " ++ dumpsInd lvl v ++ ",\n" ++ dumpsIndObj lvl (p :: rest)

end

/-- Model of `json.dumps(d, indent=2)` on a top-level dict. -/
def dumpsIndent (d : JDict) : String := dumpsInd 0 (JsonVal.obj d)

/-! ## Dict primitives (Python `dict` operations on insertion-ordered maps) -/

/-- Value of key `key` in a dict (`d[key]` / `d.get(key)`): first binding wins
(a dict produced by `json.loads` binds each key once). -/
def jget : JDict → String → Option JsonVal
  | [], _ => none
  | (k, v) :: d, key => if k = key then some v else jget d key

/-- Key membership test, Python `key in d`. -/
def jmem (key : String) : JDict → Bool
  | [] => false
  | (k, _) :: d => if k = key then true else jmem key d

/-- Removal of a key, Python `d.pop(key)` on a dict (drops every binding of
`key`; a dict has at most one). -/
def jerase : JDict → String → JDict
  | [], _ => []
  | (k, v) :: d, key => if k = key then jerase d key else (k, v) :: jerase d key

/-- Overwrite the value bound to `key` with JSON null, Python
`d[key] = None` when `key` is already present. -/
def setNullFor : JDict → String → JDict
  | [], _ => []
  | (k, v) :: d, key =>
      if k = key then (k, JsonVal.null) :: setNullFor d key
      else (k, v) :: setNullFor d key

/-! ## Python string helpers used by `trim_event` -/

/-- The whitespace class of Python `str.strip()` / `str.split(None)`
(ASCII portion). -/
def pySpaceB (c : Char) : Bool :=
  c = ' ' || c = '\t' || c = '\n' || c = '\r' || c = '\x0b' || c = '\x0c'

/-- Python `s.strip()`. -/
def pyStrip (s : String) : String :=
  String.mk (((s.data.dropWhile pySpaceB).reverse.dropWhile pySpaceB).reverse)

/-- Python `t.split(None, 1)`: at most two parts, splitting on the first run
of whitespace, leading whitespace ignored; an empty or whitespace-only string
yields `[]`, a string with no internal whitespace a single part. -/
def pySplitNone1 (t : String) : List String :=
  let cs := t.data.dropWhile pySpaceB
  if cs.isEmpty then []
  else
    let head := cs.takeWhile (fun c => !pySpaceB c)
    let rest := (cs.dropWhile (fun c => !pySpaceB c)).dropWhile pySpaceB
    if rest.isEmpty then [String.mk head] else [String.mk head, String.mk rest]

/-- Python `s.startswith` applied to an opening-brace literal: does the
message begin with an opening brace? -/
def startsBrace (s : String) : Bool :=
  match s.data with
  | '{' :: _ => true
  | _ => false

/-- Python `s.split(",")`, worker over the character list. -/
def splitCommaGo : List Char → List Char → List String
  | [], acc => [String.mk acc.reverse]
  | c :: cs, acc =>
      if c = ',' then String.mk acc.reverse :: splitCommaGo cs []
      else splitCommaGo cs (c :: acc)

/-- Python `s.split(",")`. -/
def pySplitComma (s : String) : List String := splitCommaGo s.data []

/-- Python `sep.join(parts)`. -/
def pyJoin (sep : String) : List String → String
  | [] => ""
  | [x] => x
  | x :: y :: rest => x ++ sep ++ pyJoin sep (y :: rest)

/-- `re.match(r"\d{4}-\d{2}-\d{2}T", head)`: does `head` begin with an
ISO-8601 date prefix? -/
def isoHead (h : String) : Bool :=
  match h.data with
  | c0 :: c1 :: c2 :: c3 :: c4 :: c5 :: c6 :: c7 :: c8 :: c9 :: c10 :: _ =>
    c0.isDigit && c1.isDigit && c2.isDigit && c3.isDigit && c4 = '-' &&
    c5.isDigit && c6.isDigit && c7 = '-' && c8.isDigit && c9.isDigit && c10 = 'T'
  | _ => false

/-- The regex class `\w` (ASCII portion). -/
def isWordChar (c : Char) : Bool := c.isAlphanum || c = '_'

/-- The regex match of a canonical GUID prefix (five hyphen-separated groups
of word characters of lengths 8, 4, 4, 4 and 12): does `t` begin with a
canonical 36-character GUID? -/
def guidStart (t : String) : Bool :=
  decide (t.data.length ≥ 36) &&
  (List.range 36).all (fun i =>
    if i = 8 ∨ i = 13 ∨ i = 18 ∨ i = 23 then t.data.getD i ' ' = '-'
    else isWordChar (t.data.getD i ' '))

/-! ## The source functions -/

/-- `trim_event` (cli.py lines 90-98).  `head, tail = s.strip().split(None, 1)`
raises `ValueError` when the stripped string holds fewer than two parts;
that exception is the `none` result. -/
def trim_event (s : String) : Option String :=
  let t := pyStrip s
  match pySplitNone1 t with
  | [head, tail] =>
    some (if isoHead head then tail
          else if guidStart t then String.mk (t.data.drop 37)
          else t)
  | _ => none

/-- One log event (`Msg` dataclass, cli.py lines 28-32): raw message text,
timestamp in epoch milliseconds, and the parsed JSON object when one has been
attached (`None` initially). -/
structure Msg where
  message : String
  timestamp : Int
  parsed : Option JDict := none
deriving DecidableEq

/-- A raw record from `get_log_events`: the two fields `analyze_events`
reads. -/
structure RawEvent where
  message : String
  timestamp : Int
deriving DecidableEq

/-- One iteration of the `for part in zoom_parts` loop of `zoom_in`
(cli.py lines 78-85), acting on the pair (remaining dict, parts rendered so
far).  `popped = loaded.pop(part, None)` yields Python `None` both when the
key is absent and when its value is JSON null; only in the second case is a
binding removed. -/
def zoomStep (acc : JDict × List String) (part : String) : JDict × List String :=
  match jget acc.1 part with
  | none => acc
  | some (JsonVal.str s) => (jerase acc.1 part, acc.2 ++ [s])
  | some JsonVal.null => (jerase acc.1 part, acc.2)
  | some v => (jerase acc.1 part, acc.2 ++ [dumps v])

/-- `zoom_in` (cli.py lines 72-87).  `if not event.parsed` is Python falsity:
an absent or empty parsed map returns the raw message. -/
def zoom_in (event : Msg) (zoom_parts : List String) : String :=
  match event.parsed with
  | none => event.message
  | some d =>
    if d.isEmpty then event.message
    else
      let res := zoom_parts.foldl zoomStep (d, [])
      pyJoin "\t" res.2 ++ "\t" ++ dumps (JsonVal.obj res.1)

/-- `render_event` (cli.py lines 101-108): `trim_event` is applied to the
zoomed text, or twice to the raw message when no zoom fields are in effect;
a `ValueError` from `trim_event` propagates. -/
def render_event (fmtTime : Int → String) (event : Msg) (zoom_parts : List String) :
    Option String :=
  let textO : Option String :=
    if zoom_parts.isEmpty then trim_event event.message
    else some (zoom_in event zoom_parts)
  textO.bind (fun text =>
    (trim_event text).map (fun t => fmtTime event.timestamp ++ " " ++ t))

/-- `safe_parse_json` (cli.py lines 121-126): a `JSONDecodeError` gives the
empty dict. -/
def safe_parse_json (loads : String → Option JDict) (text : String) : JDict :=
  (loads text).getD []

/-- The `messages` list built on cli.py line 130: one `Msg` per raw record,
in order, with no parse attached. -/
def messagesOf (events : List RawEvent) : List Msg :=
  events.map (fun ev => { message := ev.message, timestamp := ev.timestamp, parsed := none })

/-- The JSON classification test of cli.py line 131. -/
def isJsonMsg (m : Msg) : Bool := startsBrace m.message

/-- The `json_messages` list of cli.py line 131. -/
def jsonMessagesOf (events : List RawEvent) : List Msg :=
  (messagesOf events).filter isJsonMsg

/-- `max(json_messages, key=lambda x: len(x.message))` (cli.py line 134):
the first message of greatest length. -/
def longestMsgIn (first : Msg) (rest : List Msg) : Msg :=
  rest.foldl (fun a b => if b.message.data.length > a.message.data.length then b else a) first

/-- The parse attachment loop of cli.py lines 141-145: `msg.parsed` becomes
the parse of the message, or the empty dict on `JSONDecodeError`. -/
def withParsed (loads : String → Option JDict) (m : Msg) : Msg :=
  { m with parsed := some ((loads m.message).getD []) }

/-- One assignment step of the shared-value accumulator
(cli.py lines 151-155): a first occurrence records the value, a differing
later occurrence overwrites the record with the `None` sentinel, an equal
later occurrence changes nothing. -/
def updateShared (shared : JDict) (k : String) (v : JsonVal) : JDict :=
  match jget shared k with
  | none => shared ++ [(k, v)]
  | some w => if w = v then shared else setNullFor shared k

/-- The contribution of one event to the shared-value accumulator
(cli.py lines 147-155): an event whose parsed map is absent or empty is
skipped. -/
def sharedStep (acc : JDict) (ev : Msg) : JDict :=
  match ev.parsed with
  | none => acc
  | some d => if d.isEmpty then acc else d.foldl (fun a p => updateShared a p.1 p.2) acc

/-- The full shared-value accumulator over a batch. -/
def sharedFoldOf (evs : List Msg) : JDict := evs.foldl sharedStep []

/-- The test `shared_values[k] is not None` of cli.py line 159 (JSON null is
the Lean value of Python `None`). -/
def notNullB : JsonVal → Bool
  | JsonVal.null => false
  | _ => true

/-- The comprehension of cli.py line 159: keep the keys whose recorded value
is not the `None` sentinel. -/
def dropNullShared (shared : JDict) : JDict :=
  shared.filter (fun p => notNullB p.2)

/-- The fixed zoom-guess priority list of cli.py line 139. -/
def tries : List String :=
  ["level", "logLevel", "log_level", "message", "scope", "text", "exception"]

/-- `analyze_events` (cli.py lines 129-160). -/
def analyze_events (loads : String → Option JDict) (events : List RawEvent) :
    List Msg × List String × JDict :=
  let messages := messagesOf events
  match jsonMessagesOf events with
  | [] => (messages, [], [])
  | m :: rest =>
    let longest_json := (longestMsgIn m rest).message
    let parsed_longest := safe_parse_json loads longest_json
    if parsed_longest.isEmpty then (messages, [], [])
    else
      let guessed_zoom := tries.filter (fun k => jmem k parsed_longest)
      let json_parsed := (m :: rest).map (withParsed loads)
      (json_parsed, guessed_zoom, dropNullShared (sharedFoldOf json_parsed))

/-- `remove_shared_values` (cli.py lines 163-169): every shared key is popped
from every non-falsy parsed map; the Python in-place mutation is modelled by
returning the updated batch. -/
def remove_shared_values (events : List Msg) (shared_keys : List String) : List Msg :=
  events.map (fun ev =>
    match ev.parsed with
    | none => ev
    | some d =>
      if d.isEmpty then ev
      else { ev with parsed := some (d.filter (fun p => !(decide (p.1 ∈ shared_keys)))) })

/-- The zoom-field selection of cli.py line 197:
`args.zoom.split(",") if args.zoom else guess_zoom` (absent or empty
`--zoom` is falsy). -/
def effectiveZoom (zoomArg : Option String) (guess : List String) : List String :=
  match zoomArg with
  | none => guess
  | some z => if z.isEmpty then guess else pySplitComma z

/-- The key set handed to `remove_shared_values` on cli.py line 196. -/
def sharedKeysOf (shared : JDict) : List String := shared.map Prod.fst

/-- The rendering pipeline of one batch (cli.py lines 195-198): analyze,
strip shared keys, render each surviving event with the effective zoom
fields. -/
def pipeline_lines (loads : String → Option JDict) (fmtTime : Int → String)
    (zoomArg : Option String) (events : List RawEvent) : List (Option String) :=
  let r := analyze_events loads events
  let evs := remove_shared_values r.1 (sharedKeysOf r.2.2)
  let zoom_parts := effectiveZoom zoomArg r.2.1
  evs.map (fun ev => render_event fmtTime ev zoom_parts)

/-- The header construction of cli.py lines 200-204. -/
def preamble (shared : JDict) : String :=
  if shared.isEmpty then "" else "<SHARED> " ++ dumpsIndent shared ++ "\n"

/-- The parse of the sampled representative message: the empty dict exactly
when the JSON-classified subset is empty, the longest JSON-classified message
fails to parse, or it parses to an empty object — the three degenerate cases
of cli.py lines 132-138. -/
def sampledDict (loads : String → Option JDict) (events : List RawEvent) : JDict :=
  match jsonMessagesOf events with
  | [] => []
  | m :: rest => safe_parse_json loads ((longestMsgIn m rest).message)

/-! ## Specification-side definitions

The definitions below restate parts of the specification in direct-recursion
form, to be compared with the fold-based source functions above. -/

/-- The zoom parts the specification describes, by direct recursion on the
zoom keys: a present string value contributes the raw string, a present
non-string non-null value its compact serialization, an absent key and a
present JSON null contribute nothing; every present key is removed before
the next key is processed. -/
def zoomParts : JDict → List String → List String
  | _, [] => []
  | d, k :: ks =>
    match jget d k with
    | some (JsonVal.str s) => s :: zoomParts (jerase d k) ks
    | some JsonVal.null => zoomParts (jerase d k) ks
    | some v => dumps v :: zoomParts (jerase d k) ks
    | none => zoomParts d ks

/-- What remains of a parsed map after the zoom keys are popped in order. -/
def zoomResidue : JDict → List String → JDict
  | d, [] => d
  | d, k :: ks =>
    match jget d k with
    | some _ => zoomResidue (jerase d k) ks
    | none => zoomResidue d ks

/-- Forget the parse attached to an event, keeping its raw fields. -/
def clearParsed (m : Msg) : Msg :=
  { message := m.message, timestamp := m.timestamp, parsed := none }

/-- All key/value entries of the parsed maps of a batch, in batch order then
insertion order (an absent parse contributes nothing). -/
def allEntries : List Msg → List (String × JsonVal)
  | [] => []
  | ev :: evs => (ev.parsed.getD []) ++ allEntries evs

/-- The occurrence stream of key `k` in a list of entries: the values bound
to `k`, in order. -/
def occsOf (k : String) (es : List (String × JsonVal)) : List JsonVal :=
  (es.filter (fun p => decide (p.1 = k))).map Prod.snd

/-- The occurrence stream of a key is non-empty, constant, and its common
value is not JSON null — the membership condition of the corrected
shared-field characterization. -/
def constNonNull : List JsonVal → Prop
  | [] => False
  | v :: vs => v ≠ JsonVal.null ∧ ∀ w ∈ vs, w = v

instance : ∀ vs, Decidable (constNonNull vs)
  | [] => by simp [constNonNull]; exact inferInstanceAs (Decidable False)
  | v :: vs => by simp [constNonNull]; exact inferInstanceAs (Decidable (_ ∧ _))

/-- The header the specification sentence describes, read literally: the
marker, the indented JSON, then a blank line (an empty line needs a second
newline after the one ending the JSON). -/
def specHeader (shared : JDict) : String :=
  if shared.isEmpty then "" else "<SHARED> " ++ dumpsIndent shared ++ "\n\n"

/-! ## Characterization devices for the shared-value accumulator -/

/-- The shared-value accumulation over a flat list of entries. -/
def entryFold (es : List (String × JsonVal)) (acc : JDict) : JDict :=
  es.foldl (fun a p => updateShared a p.1 p.2) acc

/-- How the record of one key evolves along its occurrence stream: absent
until the first occurrence, then the first value, collapsed to the null
sentinel by any differing later occurrence, never resurrected. -/
def evolveO : Option JsonVal → List JsonVal → Option JsonVal
  | acc, [] => acc
  | none, v :: vs => evolveO (some v) vs
  | some w, v :: vs => evolveO (some (if w = v then w else JsonVal.null)) vs

/-- The record of a key after its first value `w` and the remaining
occurrence stream. -/
def collapseFrom (w : JsonVal) : List JsonVal → JsonVal
  | [] => w
  | v :: vs => collapseFrom (if w = v then w else JsonVal.null) vs

/-! ## Concrete batches used in counterexamples and witnesses -/

/-- A parser table: the parses `json.loads` produces on the concrete
messages of the batches below. -/
def demoLoads : String → Option JDict := fun s =>
  if s = "\x7b\"a\": 1, \"b\": 2\x7d" then some [("a", JsonVal.num 1), ("b", JsonVal.num 2)]
  else if s = "\x7b\"a\": 1\x7d" then some [("a", JsonVal.num 1)]
  else if s = "\x7b\"a\": 1, \"c\": 2\x7d" then some [("a", JsonVal.num 1), ("c", JsonVal.num 2)]
  else if s = "\x7b\"a\": 1, \"c\": 3\x7d" then some [("a", JsonVal.num 1), ("c", JsonVal.num 3)]
  else none

/-- Two JSON events; the key `b` occurs only in the first. -/
def demoEventsAB : List RawEvent :=
  [{ message := "\x7b\"a\": 1, \"b\": 2\x7d", timestamp := 0 },
   { message := "\x7b\"a\": 1\x7d", timestamp := 1 }]

/-- A plain-text event followed by a JSON event. -/
def demoEventsMixed : List RawEvent :=
  [{ message := "hello world", timestamp := 0 },
   { message := "\x7b\"a\": 1\x7d", timestamp := 1 }]

/-- Two JSON events agreeing on `a` and disagreeing on `c`. -/
def demoEventsAC : List RawEvent :=
  [{ message := "\x7b\"a\": 1, \"c\": 2\x7d", timestamp := 0 },
   { message := "\x7b\"a\": 1, \"c\": 3\x7d", timestamp := 1 }]

/-! ## Helper lemmas on the string primitives -/

theorem mem_of_mem_dropWhile {p : Char → Bool} {c : Char} (l : List Char)
    (h : c ∈ l.dropWhile p) : c ∈ l := by
  induction l with
  | nil => simp at h
  | cons a l ih =>
    rw [List.dropWhile_cons] at h
    split at h
    · exact List.mem_cons_of_mem a (ih h)
    · exact h

theorem dropWhile_eq_self_of_all {p : Char → Bool} (l : List Char)
    (h : ∀ c ∈ l, p c = false) : l.dropWhile p = l := by
  cases l with
  | nil => rfl
  | cons a l => simp [List.dropWhile_cons, h a (List.mem_cons_self a l)]

theorem dropWhile_eq_nil_of_all {p : Char → Bool} (l : List Char)
    (h : ∀ c ∈ l, p c = true) : l.dropWhile p = [] := by
  induction l with
  | nil => rfl
  | cons a l ih =>
    rw [List.dropWhile_cons, if_pos (h a (List.mem_cons_self a l))]
    exact ih fun c hc => h c (List.mem_cons_of_mem a hc)

theorem takeWhile_eq_self_of_all {p : Char → Bool} (l : List Char)
    (h : ∀ c ∈ l, p c = true) : l.takeWhile p = l := by
  induction l with
  | nil => rfl
  | cons a l ih =>
    rw [List.takeWhile_cons, if_pos (h a (List.mem_cons_self a l))]
    rw [ih fun c hc => h c (List.mem_cons_of_mem a hc)]

theorem mem_pyStrip {c : Char} (s : String) (h : c ∈ (pyStrip s).data) : c ∈ s.data := by
  have h1 : c ∈ ((s.data.dropWhile pySpaceB).reverse.dropWhile pySpaceB).reverse := h
  rw [List.mem_reverse] at h1
  have h2 := mem_of_mem_dropWhile _ h1
  rw [List.mem_reverse] at h2
  exact mem_of_mem_dropWhile _ h2

/-! ## C3: the trimmer on whitespace-free strings -/

/-- C3 (counterexample): the claim says the trimmer, on a string with no
whitespace at all, does not raise and returns the input unchanged.  On
`"abc"` (whitespace-free) the unpacking `head, tail = s.strip().split(None, 1)`
raises `ValueError`, so `trim_event` returns no value at all. -/
theorem trim_event_no_whitespace_cex :
    ("abc".data.all (fun c => !pySpaceB c)) = true
    ∧ trim_event "abc" ≠ some "abc"
    ∧ trim_event "abc" = none := by decide

/-- C3 (amended): for every string containing no whitespace at all,
`trim_event` raises `ValueError` (returns no value); it never returns the
input unchanged. -/
theorem trim_event_no_whitespace (s : String)
    (h : ∀ c ∈ s.data, pySpaceB c = false) : trim_event s = none := by
  have ht : ∀ c ∈ (pyStrip s).data, pySpaceB c = false :=
    fun c hc => h c (mem_pyStrip s hc)
  have hsplit : pySplitNone1 (pyStrip s) = []
      ∨ pySplitNone1 (pyStrip s) = [String.mk (pyStrip s).data] := by
    simp only [pySplitNone1]
    rw [dropWhile_eq_self_of_all _ ht]
    cases hd : (pyStrip s).data with
    | nil => left; simp
    | cons a l =>
      right
      have ht' : ∀ c ∈ a :: l, pySpaceB c = false := fun c hc => ht c (hd ▸ hc)
      have h1 : (a :: l).takeWhile (fun c => !pySpaceB c) = a :: l :=
        takeWhile_eq_self_of_all _ (fun c hc => by simp [ht' c hc])
      have h2 : (a :: l).dropWhile (fun c => !pySpaceB c) = [] :=
        dropWhile_eq_nil_of_all _ (fun c hc => by simp [ht' c hc])
      simp [h1, h2]
  simp only [trim_event]
  rcases hsplit with h' | h' <;> rw [h']

/-- C3 (witness): the amended statement evaluated at `"abc"`. -/
theorem trim_event_no_whitespace_witness : trim_event "abc" = none :=
  trim_event_no_whitespace "abc" (by decide)

/-! ## C4: rendering a non-JSON event -/

/-- C4 (counterexample): with an empty zoom-field list, `render_event` on a
non-JSON event applies the trimmer twice, so it is not the formatted time
plus the trimmer applied once whenever the message starts with two
ISO-timestamp tokens. -/
theorem render_event_nonjson_cex :
    render_event (fun _ => "00:00:00")
        { message := "2024-01-02T03 2025-01-02T03 hi", timestamp := 0, parsed := none } []
      = some "00:00:00 hi"
    ∧ (trim_event "2024-01-02T03 2025-01-02T03 hi").map (fun t => "00:00:00" ++ " " ++ t)
      = some "00:00:00 2025-01-02T03 hi"
    ∧ ¬ ((some "00:00:00 hi" : Option String) = some "00:00:00 2025-01-02T03 hi") := by decide

/-- C4 (amended): for every non-JSON event and every NON-EMPTY zoom-field
list, `render_event` never consults the zoom fields (its value is the same
for every non-empty list) and equals the formatted time, one space, and the
trimmer applied once to the raw message (failing exactly when the trimmer
fails).  With an empty zoom list the trimmer is instead applied twice. -/
theorem render_event_nonjson (fmtTime : Int → String) (ev : Msg) (zoom : List String)
    (hp : ev.parsed = none) (hz : zoom ≠ []) :
    render_event fmtTime ev zoom
      = (trim_event ev.message).map (fun t => fmtTime ev.timestamp ++ " " ++ t)
    ∧ ∀ zoom2, zoom2 ≠ [] →
        render_event fmtTime ev zoom = render_event fmtTime ev zoom2 := by
  have key : ∀ z : List String, z ≠ [] →
      render_event fmtTime ev z
        = (trim_event ev.message).map (fun t => fmtTime ev.timestamp ++ " " ++ t) := by
    intro z hzne
    cases z with
    | nil => exact absurd rfl hzne
    | cons a l => simp [render_event, zoom_in, hp, List.isEmpty_cons]
  exact ⟨key zoom hz, fun zoom2 hz2 => (key zoom hz).trans (key zoom2 hz2).symm⟩

/-- C4 (witness): the amended statement evaluated on a concrete non-JSON
event and zoom list. -/
theorem render_event_nonjson_witness :
    render_event (fun _ => "12:00:00")
        { message := "x y", timestamp := 5, parsed := none } ["level"]
      = some "12:00:00 x y" := by
  have h := (render_event_nonjson (fun _ => "12:00:00")
    { message := "x y", timestamp := 5, parsed := none } ["level"] rfl (by decide)).1
  rw [h]; decide

/-! ## C10: rendering a JSON-classified event with an empty parse -/

/-- C10: for every event whose parsed map is absent or empty and every
non-empty zoom list, `render_event` skips the zoom procedure: it equals the
formatted time plus the trimmed raw message, exactly as for the same event
with no parse attached. -/
theorem render_event_empty_parsed (fmtTime : Int → String) (ev : Msg) (zoom : List String)
    (hp : ev.parsed = none ∨ ev.parsed = some []) (hz : zoom ≠ []) :
    render_event fmtTime ev zoom
      = (trim_event ev.message).map (fun t => fmtTime ev.timestamp ++ " " ++ t)
    ∧ render_event fmtTime ev zoom = render_event fmtTime (clearParsed ev) zoom := by
  have hzi : zoom_in ev zoom = ev.message := by
    rcases hp with h | h <;> simp [zoom_in, h]
  cases zoom with
  | nil => exact absurd rfl hz
  | cons a l =>
    have hzi2 : zoom_in { message := ev.message, timestamp := ev.timestamp, parsed := none }
        (a :: l) = ev.message := by
      simp [zoom_in]
    constructor
    · simp [render_event, hzi, List.isEmpty_cons]
    · simp [render_event, hzi, hzi2, List.isEmpty_cons, clearParsed]

/-- C10 (witness): the statement evaluated on a concrete JSON-classified
event whose individual parse produced the empty map. -/
theorem render_event_empty_parsed_witness :
    render_event (fun _ => "09:30:00")
        { message := "a b", timestamp := 1, parsed := some [] } ["k"]
      = some "09:30:00 a b" := by
  have h := (render_event_empty_parsed (fun _ => "09:30:00")
    { message := "a b", timestamp := 1, parsed := some [] } ["k"] (Or.inr rfl) (by decide)).1
  rw [h]; decide

/-! ## C6: idempotence of the trimmer -/

/-- C6 (counterexample): `"2024-01-01T00 hello"` is trimmed to `"hello"`, an
output of the trimmer; applying the trimmer to it again does not return the
same result — it raises (`"hello"` has no whitespace). -/
theorem trim_event_idempotent_cex :
    trim_event "2024-01-01T00 hello" = some "hello" ∧ trim_event "hello" = none := by decide

/-- C6 (amended): the trimmer is idempotent only on its fixed points: a
string that is already stripped, splits into a head and a tail, has a head
that is not an ISO-timestamp prefix and does not start with a GUID is
returned unchanged, so re-trimming it is stable.  On other outputs a second
application can strip a further token or raise. -/
theorem trim_event_fixed_point (t head tail : String)
    (hstrip : pyStrip t = t) (hsplit : pySplitNone1 t = [head, tail])
    (hiso : isoHead head = false) (hguid : guidStart t = false) :
    trim_event t = some t := by
  simp only [trim_event]
  rw [hstrip, hsplit]
  simp [hiso, hguid]

/-- C6 (witness): the amended statement evaluated at `"ab cd"`. -/
theorem trim_event_fixed_point_witness : trim_event "ab cd" = some "ab cd" :=
  trim_event_fixed_point "ab cd" "ab" "cd" (by decide) (by decide) (by decide) (by decide)

/-! ## C8: the degenerate batches -/

/-- C8: whenever the JSON-classified subset is empty, or the longest
JSON-classified message fails to parse, or parses to an empty object (the
three cases in which `sampledDict` is empty), `analyze_events` returns all
the events unchanged, an empty zoom guess, and empty shared fields. -/
theorem analyze_events_degenerate (loads : String → Option JDict) (events : List RawEvent)
    (h : sampledDict loads events = []) :
    analyze_events loads events = (messagesOf events, [], []) := by
  rcases hj : jsonMessagesOf events with _ | ⟨m, rest⟩
  · simp [analyze_events, hj]
  · have h' : safe_parse_json loads ((longestMsgIn m rest).message) = [] := by
      simpa [sampledDict, hj] using h
    simp [analyze_events, hj, h']

/-- C8 (witness): the statement evaluated on a batch with no JSON-classified
message and a parser that always fails. -/
theorem analyze_events_degenerate_witness :
    sampledDict (fun _ => none) [⟨"hello", 0⟩] = []
    ∧ analyze_events (fun _ => none) [⟨"hello", 0⟩]
        = (messagesOf [⟨"hello", 0⟩], [], []) :=
  ⟨by decide, analyze_events_degenerate _ _ (by decide)⟩

/-! ## C9: the shared-fields header -/

/-- C9 (counterexample): the header the code writes is the marker plus a
space, the indented JSON and a single terminating newline — it is not
followed by a blank line (which would need a second newline). -/
theorem preamble_blank_line_cex :
    preamble [("a", JsonVal.num 1)] = "<SHARED> \x7b\n  \"a\": 1\n\x7d\n"
    ∧ specHeader [("a", JsonVal.num 1)] = "<SHARED> \x7b\n  \"a\": 1\n\x7d\n\n"
    ∧ preamble [("a", JsonVal.num 1)] ≠ specHeader [("a", JsonVal.num 1)] := by decide

/-- C9 (amended): for a non-empty SharedFields mapping the header is exactly
the literal `<SHARED> ` (marker and one space), the mapping serialized as
indented JSON, and one newline — no blank line; for an empty mapping the
header is omitted entirely. -/
theorem preamble_format (shared : JDict) (h : shared ≠ []) :
    preamble shared = "<SHARED> " ++ dumpsIndent shared ++ "\n" ∧ preamble [] = "" := by
  constructor
  · cases shared with
    | nil => exact absurd rfl h
    | cons p l => simp [preamble, List.isEmpty_cons]
  · rfl

/-- C9 (witness): the amended statement evaluated at a one-field mapping. -/
theorem preamble_format_witness :
    preamble [("a", JsonVal.num 1)]
      = "<SHARED> " ++ dumpsIndent [("a", JsonVal.num 1)] ++ "\n" :=
  (preamble_format [("a", JsonVal.num 1)] (by decide)).1

/-! ## C5: the zoom procedure -/

theorem zoom_foldl (zoom : List String) : ∀ d parts,
    zoom.foldl zoomStep (d, parts) = (zoomResidue d zoom, parts ++ zoomParts d zoom) := by
  induction zoom with
  | nil => intro d parts; simp [zoomResidue, zoomParts]
  | cons k ks ih =>
    intro d parts
    rcases hk : jget d k with _ | v
    · simp [List.foldl_cons, zoomStep, hk, zoomResidue, zoomParts, ih]
    · cases v <;>
        simp [List.foldl_cons, zoomStep, hk, zoomResidue, zoomParts, ih, List.append_assoc]

/-- C5 (counterexample): a present key whose value is JSON null is popped
from the map but contributes nothing to the zoom parts; the claim instead
requires its compact serialization `null` to be appended. -/
theorem zoom_in_null_value_cex :
    zoom_in { message := "m", timestamp := 0,
              parsed := some [("a", JsonVal.null), ("b", JsonVal.num 1)] } ["a"]
      = "\t\x7b\"b\": 1\x7d"
    ∧ dumps JsonVal.null = "null"
    ∧ zoom_in { message := "m", timestamp := 0,
                parsed := some [("a", JsonVal.null), ("b", JsonVal.num 1)] } ["a"]
      ≠ "null\t\x7b\"b\": 1\x7d" := by decide

/-- C5 (amended): on a JSON-classified event with a non-empty parsed map,
for each zoom key in order: a present key is removed from the map; a string
value appends the raw string, an absent key appends nothing, and a present
JSON null also appends nothing (the null value is the one non-string value
whose serialization is not appended); any other value appends its compact
serialization.  The line is the zoom parts tab-separated, a tab, then the
remaining map as compact JSON. -/
theorem zoom_in_spec (ev : Msg) (d : JDict) (zoom : List String)
    (hp : ev.parsed = some d) (hne : d ≠ []) :
    zoom_in ev zoom
      = pyJoin "\t" (zoomParts d zoom) ++ "\t" ++ dumps (JsonVal.obj (zoomResidue d zoom)) := by
  cases d with
  | nil => exact absurd rfl hne
  | cons p l => simp [zoom_in, hp, List.isEmpty_cons, zoom_foldl]

/-- C5 (witness): the amended statement evaluated on a concrete event. -/
theorem zoom_in_spec_witness :
    zoom_in { message := "m", timestamp := 0, parsed := some [("a", JsonVal.str "x")] } ["a"]
      = pyJoin "\t" (zoomParts [("a", JsonVal.str "x")] ["a"]) ++ "\t"
        ++ dumps (JsonVal.obj (zoomResidue [("a", JsonVal.str "x")] ["a"])) :=
  zoom_in_spec _ _ _ rfl (by decide)

/-! ## C7: shared keys never reach a rendered remainder -/

theorem jmem_iff_mem_keys (k : String) : ∀ d : JDict, jmem k d = true ↔ k ∈ d.map Prod.fst := by
  intro d
  induction d with
  | nil => simp [jmem]
  | cons p d ih =>
    rcases p with ⟨k0, v⟩
    by_cases h0 : k0 = k
    · simp [jmem, h0]
    · simp [jmem, h0, ih, Ne.symm h0]

theorem jmem_jerase_imp (k z : String) : ∀ d : JDict,
    jmem k (jerase d z) = true → jmem k d = true := by
  intro d
  induction d with
  | nil => intro h; simpa [jerase] using h
  | cons p d ih =>
    rcases p with ⟨k0, v⟩
    by_cases h0 : k0 = z
    · rw [jerase, if_pos h0]
      intro h
      by_cases hk : k0 = k
      · simp [jmem, hk]
      · simp [jmem, hk]; exact ih h
    · rw [jerase, if_neg h0]
      intro h
      by_cases hk : k0 = k
      · simp [jmem, hk]
      · simp [jmem, hk] at h ⊢; exact ih h

theorem zoomResidue_mem (k : String) (zoom : List String) : ∀ d,
    jmem k (zoomResidue d zoom) = true → jmem k d = true := by
  induction zoom with
  | nil => intro d h; simpa [zoomResidue] using h
  | cons z ks ih =>
    intro d h
    rcases hz : jget d z with _ | v
    · rw [zoomResidue, hz] at h
      exact ih d h
    · rw [zoomResidue, hz] at h
      exact jmem_jerase_imp k z d (ih _ h)

theorem jmem_filter_keys_false (k : String) (ks : List String) (hk : k ∈ ks) :
    ∀ d : JDict, jmem k (d.filter (fun p => !(decide (p.1 ∈ ks)))) = false := by
  intro d
  induction d with
  | nil => simp [jmem]
  | cons p d ih =>
    rcases p with ⟨k0, v⟩
    by_cases h0 : k0 ∈ ks
    · simpa [List.filter_cons, h0] using ih
    · have hne : k0 ≠ k := fun he => h0 (he ▸ hk)
      simpa [List.filter_cons, h0, jmem, hne] using ih

/-- C7: after `remove_shared_values`, a key of the SharedFields mapping is a
member neither of any event's parsed map nor of the remainder that
`zoom_in` serializes (popping zoom keys only removes further keys). -/
theorem no_shared_key_rendered (loads : String → Option JDict) (events : List RawEvent)
    (zoom : List String) (k : String) (ev : Msg) (d : JDict)
    (hev : ev ∈ remove_shared_values (analyze_events loads events).1
             (sharedKeysOf (analyze_events loads events).2.2))
    (hd : ev.parsed = some d)
    (hk : jmem k (analyze_events loads events).2.2 = true) :
    jmem k d = false ∧ jmem k (zoomResidue d zoom) = false := by
  have hks : k ∈ sharedKeysOf (analyze_events loads events).2.2 :=
    (jmem_iff_mem_keys k _).mp hk
  rcases List.mem_map.mp hev with ⟨ev0, _, heq⟩
  have hmem : jmem k d = false := by
    rcases hp0 : ev0.parsed with _ | d0
    · have : ev.parsed = none := by rw [← heq]; simp [hp0]
      rw [hd] at this; cases this
    · cases d0 with
      | nil =>
        have : ev.parsed = some [] := by rw [← heq]; simp [hp0]
        rw [hd] at this
        cases this
        simp [jmem]
      | cons q l0 =>
        have : ev.parsed
            = some ((q :: l0).filter
                (fun p => !(decide (p.1 ∈ sharedKeysOf (analyze_events loads events).2.2)))) := by
          rw [← heq]; simp [hp0, List.isEmpty_cons]
        rw [hd] at this
        cases this
        exact jmem_filter_keys_false k _ hks _
  refine ⟨hmem, ?_⟩
  cases hres : jmem k (zoomResidue d zoom) with
  | false => rfl
  | true =>
    rw [zoomResidue_mem k zoom d hres] at hmem
    cases hmem

/-- C7 (witness): the statement evaluated on the concrete batch whose shared
field is `a`, at its first event after removal. -/
theorem no_shared_key_rendered_witness :
    jmem "a" [("c", JsonVal.num 2)] = false
    ∧ jmem "a" (zoomResidue [("c", JsonVal.num 2)] ["c"]) = false :=
  no_shared_key_rendered demoLoads demoEventsAC ["c"] "a"
    { message := "\x7b\"a\": 1, \"c\": 2\x7d", timestamp := 0, parsed := some [("c", JsonVal.num 2)] }
    [("c", JsonVal.num 2)] (by decide) rfl (by decide)

/-! ## C1: membership in SharedFields -/

theorem jget_append (a b : JDict) (key : String) :
    jget (a ++ b) key = match jget a key with
      | some v => some v
      | none => jget b key := by
  induction a with
  | nil => simp [jget]
  | cons p a ih =>
    rcases p with ⟨k0, v⟩
    by_cases h0 : k0 = key
    · simp [jget, h0]
    · simpa [jget, h0] using ih

theorem jget_setNullFor (z k : String) : ∀ d : JDict,
    jget (setNullFor d z) k
      = if z = k then (jget d k).map (fun _ => JsonVal.null) else jget d k := by
  intro d
  induction d with
  | nil => simp [setNullFor, jget]
  | cons p d ih =>
    rcases p with ⟨k0, v⟩
    by_cases h0 : k0 = z
    · by_cases hk : k0 = k
      · subst h0; subst hk
        simp [setNullFor, jget]
      · subst h0
        simp [setNullFor, jget, hk, ih]
    · by_cases hk : k0 = k
      · subst hk
        have hzk : ¬ z = k0 := fun he => h0 he.symm
        simp [setNullFor, jget, h0, hzk]
      · simp [setNullFor, jget, h0, hk, ih]

theorem jget_updateShared (acc : JDict) (k' : String) (v : JsonVal) (k : String) :
    jget (updateShared acc k' v) k =
      if k' = k then
        match jget acc k with
        | none => some v
        | some w => some (if w = v then w else JsonVal.null)
      else jget acc k := by
  rcases hj : jget acc k' with _ | w
  · simp only [updateShared, hj]
    rw [jget_append]
    by_cases hk : k' = k
    · subst hk
      simp [hj, jget]
    · cases hg : jget acc k with
      | none => simp [hg, jget, hk]
      | some w => simp [hg, hk]
  · simp only [updateShared, hj]
    by_cases hw : w = v
    · rw [if_pos hw]
      by_cases hk : k' = k
      · subst hk
        simp [hj, hw]
      · simp [hk]
    · rw [if_neg hw]
      rw [jget_setNullFor]
      by_cases hk : k' = k
      · subst hk
        simp [hj, hw]
      · simp [hk]

theorem occsOf_cons (k : String) (p : String × JsonVal) (es : List (String × JsonVal)) :
    occsOf k (p :: es) = if p.1 = k then p.2 :: occsOf k es else occsOf k es := by
  by_cases h : p.1 = k <;> simp [occsOf, List.filter_cons, h]

theorem entryFold_cons (p : String × JsonVal) (es : List (String × JsonVal)) (acc : JDict) :
    entryFold (p :: es) acc = entryFold es (updateShared acc p.1 p.2) := rfl

theorem entryFold_append (a b : List (String × JsonVal)) (acc : JDict) :
    entryFold (a ++ b) acc = entryFold b (entryFold a acc) := by
  simp [entryFold, List.foldl_append]

theorem jget_entryFold (k : String) : ∀ (es : List (String × JsonVal)) (acc : JDict),
    jget (entryFold es acc) k = evolveO (jget acc k) (occsOf k es) := by
  intro es
  induction es with
  | nil => intro acc; simp [entryFold, occsOf, evolveO, List.filter_nil]
  | cons p es ih =>
    intro acc
    rw [entryFold_cons, ih, occsOf_cons, jget_updateShared]
    by_cases hp : p.1 = k
    · rw [if_pos hp, if_pos hp]
      cases hg : jget acc k with
      | none => simp [evolveO]
      | some w => simp [evolveO]
    · rw [if_neg hp, if_neg hp]

theorem sharedStep_eq (acc : JDict) (ev : Msg) :
    sharedStep acc ev = entryFold (ev.parsed.getD []) acc := by
  rcases h : ev.parsed with _ | d
  · simp [sharedStep, h, entryFold]
  · cases d with
    | nil => simp [sharedStep, h, entryFold]
    | cons p l => simp [sharedStep, h, List.isEmpty_cons, entryFold]

theorem sharedFold_entry : ∀ (evs : List Msg) (acc : JDict),
    evs.foldl sharedStep acc = entryFold (allEntries evs) acc := by
  intro evs
  induction evs with
  | nil => intro acc; simp [allEntries, entryFold]
  | cons ev evs ih =>
    intro acc
    rw [List.foldl_cons, ih, sharedStep_eq, allEntries, entryFold_append]

theorem evolveO_some : ∀ (vs : List JsonVal) (w : JsonVal),
    evolveO (some w) vs = some (collapseFrom w vs) := by
  intro vs
  induction vs with
  | nil => intro w; rfl
  | cons v vs ih =>
    intro w
    simp only [evolveO, collapseFrom]
    exact ih _

theorem collapseFrom_null : ∀ vs, collapseFrom JsonVal.null vs = JsonVal.null := by
  intro vs
  induction vs with
  | nil => rfl
  | cons v vs ih => simpa [collapseFrom, ite_self] using ih

theorem collapseFrom_ne_null_iff : ∀ (vs : List JsonVal) (w : JsonVal),
    collapseFrom w vs ≠ JsonVal.null ↔ (w ≠ JsonVal.null ∧ ∀ v ∈ vs, v = w) := by
  intro vs
  induction vs with
  | nil => intro w; simp [collapseFrom]
  | cons v vs ih =>
    intro w
    by_cases hw : w = v
    · subst hw
      simp only [collapseFrom, if_pos rfl, ih, List.mem_cons]
      constructor
      · rintro ⟨h1, h2⟩
        exact ⟨h1, fun u hu => hu.elim (fun he => he) (fun hm => h2 u hm)⟩
      · rintro ⟨h1, h2⟩
        exact ⟨h1, fun u hu => h2 u (Or.inr hu)⟩
    · rw [collapseFrom, if_neg hw, collapseFrom_null]
      constructor
      · intro h; exact absurd rfl h
      · rintro ⟨_, hall⟩
        exact absurd (hall v (List.mem_cons_self v vs)) (fun he => hw he.symm)

theorem jget_eq_none_iff (k : String) : ∀ d : JDict, jget d k = none ↔ k ∉ d.map Prod.fst := by
  intro d
  induction d with
  | nil => simp [jget]
  | cons p d ih =>
    rcases p with ⟨k0, v⟩
    by_cases h0 : k0 = k
    · simp [jget, h0]
    · simp [jget, h0, ih, Ne.symm h0]

theorem keys_setNullFor (z : String) : ∀ d : JDict,
    (setNullFor d z).map Prod.fst = d.map Prod.fst := by
  intro d
  induction d with
  | nil => rfl
  | cons p d ih =>
    rcases p with ⟨k0, v⟩
    by_cases h0 : k0 = z <;> simp [setNullFor, h0, ih]

theorem nodup_updateShared (acc : JDict) (k' : String) (v : JsonVal)
    (h : (acc.map Prod.fst).Nodup) : ((updateShared acc k' v).map Prod.fst).Nodup := by
  rcases hj : jget acc k' with _ | w
  · simp only [updateShared, hj]
    rw [List.map_append]
    refine List.Nodup.append h (List.nodup_singleton k') ?_
    intro a ha hb
    simp only [List.map_cons, List.map_nil, List.mem_singleton] at hb
    exact absurd (hb ▸ ha) ((jget_eq_none_iff k' acc).mp hj)
  · simp only [updateShared, hj]
    by_cases hw : w = v
    · simpa [hw] using h
    · simpa [hw, keys_setNullFor] using h

theorem nodup_entryFold : ∀ (es : List (String × JsonVal)) (acc : JDict),
    ((acc.map Prod.fst).Nodup) → ((entryFold es acc).map Prod.fst).Nodup := by
  intro es
  induction es with
  | nil => intro acc h; exact h
  | cons p es ih =>
    intro acc h
    rw [entryFold_cons]
    exact ih _ (nodup_updateShared _ _ _ h)

theorem notNullB_iff (v : JsonVal) : notNullB v = true ↔ v ≠ JsonVal.null := by
  cases v <;> simp [notNullB]

theorem jmem_filter_imp (k : String) (q : String × JsonVal → Bool) : ∀ d : JDict,
    jmem k (d.filter q) = true → jmem k d = true := by
  intro d
  induction d with
  | nil => simp [jmem]
  | cons p d ih =>
    rcases p with ⟨k0, v⟩
    rw [List.filter_cons]
    by_cases h0 : k0 = k
    · intro _; simp [jmem, h0]
    · cases hq : q (k0, v) with
      | false =>
        simp only [hq, if_false, Bool.false_eq_true]
        intro h
        simp only [jmem, h0, if_neg h0]
        exact ih h
      | true =>
        simp only [hq, if_true]
        intro h
        rw [jmem, if_neg h0] at h
        simp only [jmem, h0, if_neg h0]
        exact ih h

theorem jmem_dropNull (k : String) : ∀ sh : JDict, (sh.map Prod.fst).Nodup →
    (jmem k (dropNullShared sh) = true ↔ ∃ v, jget sh k = some v ∧ v ≠ JsonVal.null) := by
  intro sh
  induction sh with
  | nil => intro _; simp [dropNullShared, jmem, jget]
  | cons p sh ih =>
    intro hnd
    rw [List.map_cons, List.nodup_cons] at hnd
    rcases p with ⟨k0, v0⟩
    have ih' := ih hnd.2
    simp only [dropNullShared] at ih' ⊢
    rw [List.filter_cons]
    by_cases h0 : k0 = k
    · subst h0
      by_cases hv : v0 = JsonVal.null
      · subst hv
        rw [show notNullB (k0, JsonVal.null).2 = false from rfl]
        simp only [Bool.false_eq_true, if_false]
        constructor
        · intro h
          have h1 : jmem k0 sh = true := jmem_filter_imp k0 _ sh h
          exact absurd ((jmem_iff_mem_keys k0 sh).mp h1) hnd.1
        · rintro ⟨v, hv1, hv2⟩
          rw [jget, if_pos rfl] at hv1
          cases hv1
          exact absurd rfl hv2
      · rw [if_pos ((notNullB_iff v0).mpr hv)]
        simp [jmem, jget, hv]
    · by_cases hv : v0 = JsonVal.null
      · subst hv
        rw [show notNullB (k0, JsonVal.null).2 = false from rfl]
        simp only [Bool.false_eq_true, if_false]
        rw [ih']
        simp [jget, h0]
      · rw [if_pos ((notNullB_iff v0).mpr hv)]
        rw [jmem, if_neg h0, ih']
        simp [jget, h0]

theorem allEntries_messagesOf : ∀ events : List RawEvent,
    allEntries (messagesOf events) = [] := by
  intro events
  induction events with
  | nil => rfl
  | cons e es ih => simpa [messagesOf, allEntries] using ih

/-- C1 (counterexample): in the batch `demoEventsAB` the key `b` occurs only
in the first event's parsed map, yet it is included in SharedFields — a key
need not appear in every JSON-classified event's parsed map to be shared. -/
theorem shared_fields_everykey_cex :
    (analyze_events demoLoads demoEventsAB).2.2 = [("a", JsonVal.num 1), ("b", JsonVal.num 2)]
    ∧ (analyze_events demoLoads demoEventsAB).1.map Msg.parsed
        = [some [("a", JsonVal.num 1), ("b", JsonVal.num 2)], some [("a", JsonVal.num 1)]]
    ∧ jmem "b" [("a", JsonVal.num 1)] = false := by decide

/-- C1 (amended): a key is in the SharedFields mapping returned by
`analyze_events` iff its occurrence stream — the values bound to it across
the parsed maps of the returned events, in order — is non-empty, constant,
and its common value is not JSON null.  Events that lack the key (or whose
parsed map is empty or absent) do not exclude it, and a key bound to JSON
null everywhere is excluded even though its occurrences are pairwise
equal. -/
theorem shared_fields_mem_iff (loads : String → Option JDict) (events : List RawEvent)
    (k : String) :
    jmem k (analyze_events loads events).2.2 = true
      ↔ constNonNull (occsOf k (allEntries (analyze_events loads events).1)) := by
  rcases hj : jsonMessagesOf events with _ | ⟨m, rest⟩
  · simp only [analyze_events, hj]
    rw [allEntries_messagesOf]
    simp [occsOf, constNonNull, jmem]
  · by_cases hdeg : (safe_parse_json loads ((longestMsgIn m rest).message)).isEmpty = true
    · simp only [analyze_events, hj, hdeg, if_true]
      rw [allEntries_messagesOf]
      simp [occsOf, constNonNull, jmem]
    · rw [Bool.not_eq_true] at hdeg
      simp only [analyze_events, hj, hdeg, Bool.false_eq_true, if_false]
      set evs := (m :: rest).map (withParsed loads) with hevs
      have hnd : ((sharedFoldOf evs).map Prod.fst).Nodup := by
        rw [sharedFoldOf, sharedFold_entry]
        exact nodup_entryFold _ [] (by simp)
      rw [jmem_dropNull k _ hnd]
      have hg : jget (sharedFoldOf evs) k = evolveO none (occsOf k (allEntries evs)) := by
        rw [sharedFoldOf, sharedFold_entry, jget_entryFold]
        rfl
      rw [hg]
      cases hocc : occsOf k (allEntries evs) with
      | nil => simp [evolveO, constNonNull]
      | cons v vs =>
        have he : evolveO none (v :: vs) = some (collapseFrom v vs) := by
          simp only [evolveO]
          exact evolveO_some vs v
        rw [he]
        simp only [constNonNull]
        constructor
        · rintro ⟨w, hw1, hw2⟩
          cases hw1
          exact (collapseFrom_ne_null_iff vs v).mp hw2
        · intro h
          exact ⟨collapseFrom v vs, rfl, (collapseFrom_ne_null_iff vs v).mpr h⟩

/-! ## C2: which events survive to rendering -/

/-- C2 (counterexample): on a batch holding one plain-text and one JSON
event, `analyze_events` returns only the JSON event — the plain-text event
is dropped, so the pipeline does not produce one line per input record. -/
theorem analyze_drops_plain_cex :
    (analyze_events demoLoads demoEventsMixed).1
      = [{ message := "\x7b\"a\": 1\x7d", timestamp := 1, parsed := some [("a", JsonVal.num 1)] }]
    ∧ (analyze_events demoLoads demoEventsMixed).1.length ≠ demoEventsMixed.length := by decide

theorem map_clearParsed_messagesOf : ∀ events : List RawEvent,
    (messagesOf events).map clearParsed = messagesOf events := by
  intro events
  induction events with
  | nil => rfl
  | cons e es ih => simp [messagesOf, clearParsed, ih]

theorem parsed_none_of_mem_jsonMessagesOf {events : List RawEvent} {m : Msg}
    (h : m ∈ jsonMessagesOf events) : m.parsed = none := by
  have h1 : m ∈ messagesOf events := List.mem_of_mem_filter h
  rw [messagesOf] at h1
  rcases List.mem_map.mp h1 with ⟨e, _, he⟩
  rw [← he]

theorem map_clearParsed_withParsed (loads : String → Option JDict) : ∀ l : List Msg,
    (∀ m ∈ l, m.parsed = none) → (l.map (withParsed loads)).map clearParsed = l := by
  intro l
  induction l with
  | nil => intro _; rfl
  | cons m l ih =>
    intro h
    simp only [List.map_cons, List.cons.injEq]
    refine ⟨?_, ih fun x hx => h x (List.mem_cons_of_mem m hx)⟩
    have hm := h m (List.mem_cons_self m l)
    cases m with
    | mk msg ts p =>
      simp [clearParsed, withParsed]
      exact hm.symm

/-- C2 (amended): the pipeline renders one line per event returned by
`analyze_events`, in order; in the degenerate cases (no JSON-classified
message, or the sampled longest message not parsing to a non-empty object)
`analyze_events` returns every input event unchanged in input order, and
otherwise it returns exactly the JSON-classified events in their original
relative order — the non-JSON events are dropped before rendering. -/
theorem analyze_events_order (loads : String → Option JDict) (fmtTime : Int → String)
    (zoomArg : Option String) (events : List RawEvent) :
    (analyze_events loads events).1.map clearParsed
      = (if (sampledDict loads events).isEmpty then messagesOf events
         else jsonMessagesOf events)
    ∧ (pipeline_lines loads fmtTime zoomArg events).length
      = (analyze_events loads events).1.length := by
  constructor
  · rcases hj : jsonMessagesOf events with _ | ⟨m, rest⟩
    · simp only [analyze_events, sampledDict, hj]
      simp [map_clearParsed_messagesOf]
    · by_cases hdeg : (safe_parse_json loads ((longestMsgIn m rest).message)).isEmpty = true
      · simp only [analyze_events, sampledDict, hj, hdeg, if_true]
        simp [map_clearParsed_messagesOf]
      · rw [Bool.not_eq_true] at hdeg
        simp only [analyze_events, sampledDict, hj, hdeg, Bool.false_eq_true, if_false]
        exact map_clearParsed_withParsed loads (m :: rest)
          (fun x hx => @parsed_none_of_mem_jsonMessagesOf events x (by rw [hj]; exact hx))
  · simp [pipeline_lines, remove_shared_values, List.length_map]
